import Mathlib

/-!
Verification of the ws2811 LED driver core (`ws2811.c`).

The development shallowly embeds the parts of the source that the verified
properties talk about: the bitstream encoder of `ws2811_render`, the buffer
initializer `pwm_raw_init`, the byte-count sizing macros, the DMA descriptor
chain construction in `setup_pwm`, the cleanup/fini lifecycle functions and
the completion waiter `ws2811_wait`.  Machine words are modelled as `Nat`
(all stored word values stay below `2 ^ 32`), buffers as `List Nat` of
32-bit words, and fallible or hardware-observing code as functions over
explicit observation traces returning `Option`.
-/

/-- Number of PWM channels.  Modelled from the spec: `RPI_PWM_CHANNELS` is
defined in a header that is not part of the core source file; the spec fixes
two PWM outputs fed by one 32-bit serializer. -/
def RPI_PWM_CHANNELS : Nat := 2

/-- Symbol for a logical 1 bit: 0x6 = binary 110. -/
def SYMBOL_HIGH : Nat := 0x6

/-- Symbol for a logical 0 bit: 0x4 = binary 100. -/
def SYMBOL_LOW : Nat := 0x4

/-- Reset-gap length in microseconds (`LED_RESET_uS`). -/
def LED_RESET_uS : Nat := 55

/-- `LED_BIT_COUNT(leds, freq) = (leds*3*8*3) + ((LED_RESET_uS*(freq*3))/1000000)`. -/
def LED_BIT_COUNT (leds freq : Nat) : Nat :=
  leds * 3 * 8 * 3 + LED_RESET_uS * (freq * 3) / 1000000

/-- `PWM_BYTE_COUNT(leds, freq) = (((((LED_BIT_COUNT(leds,freq) >> 3) & ~0x7) + 4) + 4)
* RPI_PWM_CHANNELS)`; `~0x7` on a 32-bit int is the mask `0xfffffff8`. -/
def PWM_BYTE_COUNT (leds freq : Nat) : Nat :=
  ((((LED_BIT_COUNT leds freq >>> 3) &&& 0xfffffff8) + 4) + 4) * RPI_PWM_CHANNELS

/-- One channel of the `ws2811_t` configuration: GPIO pin, LED count,
inversion flag and the owned array of packed 24-bit colors. -/
structure ws2811_channel_t where
  gpionum : Nat
  count : Nat
  invert : Bool
  leds : List Nat
deriving DecidableEq, Repr

/-- The three color bytes of one LED in emission order, exactly as built in
`ws2811_render`: `(leds[i] >> 8) & 0xff` (green), `(leds[i] >> 16) & 0xff`
(red), `(leds[i] >> 0) & 0xff` (blue). -/
def colorBytes (led : Nat) : List Nat :=
  [led >>> 8 &&& 0xff, led >>> 16 &&& 0xff, led >>> 0 &&& 0xff]

/-- The symbol chosen for bit `k` of color byte `b`: `SYMBOL_LOW`, replaced
by `SYMBOL_HIGH` when `color[j] & (1 << k)` is nonzero, then complemented as
`~symbol & 0x7` when the channel is inverted (`~` on a `uint8_t` value is
modelled as xor with `0xff`). -/
def symbolForBit (invert : Bool) (b k : Nat) : Nat :=
  let symbol := if b &&& (1 <<< k) ≠ 0 then SYMBOL_HIGH else SYMBOL_LOW
  if invert then (symbol ^^^ 0xff) &&& 0x7 else symbol

/-- The three sub-bits of a symbol in emission order, i.e. the truth of
`symbol & (1 << l)` for `l = 2, 1, 0`. -/
def symbolSubbits (s : Nat) : List Bool :=
  [s &&& (1 <<< 2) != 0, s &&& (1 <<< 1) != 0, s &&& (1 <<< 0) != 0]

/-- The full sub-bit stream one channel contributes in `ws2811_render`:
for each of the first `count` LEDs, for each color byte in emission order,
for each bit `k = 7..0`, the three sub-bits of its symbol. -/
def channelSubbits (ch : ws2811_channel_t) : List Bool :=
  (ch.leds.take ch.count).flatMap fun led =>
    (colorBytes led).flatMap fun b =>
      (List.range 8).reverse.flatMap fun k =>
        symbolSubbits (symbolForBit ch.invert b k)

/-- One iteration of the innermost loop of `ws2811_render`: clear bit
`bitpos` of word `wordpos` (`*wordptr &= ~(1 << bitpos)`), set it when the
sub-bit is 1 (`*wordptr |= (1 << bitpos)`), then advance the cursor:
`bitpos--; if (bitpos < 0) { wordpos += 2; bitpos = 31; }`. -/
def writeSubbit (st : List Nat × Nat × Nat) (bit : Bool) : List Nat × Nat × Nat :=
  let buf := st.1
  let wordpos := st.2.1
  let bitpos := st.2.2
  let w := buf.getD wordpos 0 &&& (0xffffffff ^^^ (1 <<< bitpos))
  let w := if bit then w ||| (1 <<< bitpos) else w
  let buf := buf.set wordpos w
  if bitpos = 0 then (buf, wordpos + 2, 31) else (buf, wordpos, bitpos - 1)

/-- Write a sequence of sub-bits, threading the `(buffer, wordpos, bitpos)`
cursor state exactly as the nested loops of `ws2811_render` do. -/
def writeBits : List Nat × Nat × Nat → List Bool → List Nat × Nat × Nat
  | st, [] => st
  | st, bit :: rest => writeBits (writeSubbit st bit) rest

/-- The channel loop of `ws2811_render`: for each channel (with index
`chan`), `wordpos` restarts at `chan` while `bitpos` carries over from the
previous channel. -/
def renderLoop (chan : Nat) : List ws2811_channel_t → List Nat × Nat → List Nat
  | [], st => st.1
  | ch :: rest, st =>
      let st1 := writeBits (st.1, chan, st.2) (channelSubbits ch)
      renderLoop (chan + 1) rest (st1.1, st1.2.2)

/-- The buffer-encoding part of `ws2811_render`: `bitpos` starts at 31 once,
before the channel loop. -/
def ws2811_render (chans : List ws2811_channel_t) (buf : List Nat) : List Nat :=
  renderLoop 0 chans (buf, 31)

-- quick sanity checks of the encoder on concrete data
example : colorBytes 0x010203 = [0x02, 0x01, 0x03] := by decide
example : symbolSubbits SYMBOL_HIGH = [true, true, false] := by decide
example : symbolSubbits SYMBOL_LOW = [true, false, false] := by decide
example : (channelSubbits ⟨18, 1, false, [0]⟩).length = 72 := by decide
example : channelSubbits ⟨18, 1, false, [0]⟩ =
    List.flatten (List.replicate 24 [true, false, false]) := by decide

/-! ### Spec-side encoder

A second encoder written from the specification's words, used to compare
the source encoder against the byte sequences the spec claims. -/

/-- Modelled from the spec: the eight bits of a byte taken from
most-significant to least-significant. -/
def specByteBits (b : Nat) : List Bool :=
  (List.range 8).map fun i => b.testBit (7 - i)

/-- Modelled from the spec: logical 1 becomes sub-bits {1,1,0}, logical 0
becomes sub-bits {1,0,0}. -/
def specSymbol (bit : Bool) : List Bool :=
  if bit then [true, true, false] else [true, false, false]

/-- Modelled from the spec: the sub-bit stream obtained by encoding a list
of bytes in the given order, bit by bit from most significant to least
significant, three sub-bits per bit. -/
def specEncodeBytes (bs : List Nat) : List Bool :=
  bs.flatMap fun b => (specByteBits b).flatMap specSymbol

/-- Claim C1 (counterexample): a single-LED non-inverted channel with packed
color `0x010203` does not emit the byte sequence `(0x01, 0x02, 0x03)`; the
first emitted (green) byte of `0x010203` is `0x02`, not `0x01`. -/
theorem c1_color_order_counterexample :
    channelSubbits ⟨18, 1, false, [0x010203]⟩ ≠ specEncodeBytes [0x01, 0x02, 0x03] ∧
    colorBytes 0x010203 ≠ [0x01, 0x02, 0x03] := by
  constructor <;> decide

/-- Claim C1 (amended): for a single-LED, non-inverted channel with packed
color `0x010203`, render emits the bytes in the order green, red, blue, where
the packed layout places red in bits 16-23, green in bits 8-15 and blue in
bits 0-7; so the emitted byte sequence is green=0x02 first, then red=0x01,
then blue=0x03. -/
theorem c1_color_order_amended :
    channelSubbits ⟨18, 1, false, [0x010203]⟩ = specEncodeBytes [0x02, 0x01, 0x03] ∧
    colorBytes 0x010203 = [0x02, 0x01, 0x03] := by
  constructor <;> decide

-- sanity: PWM_BYTE_COUNT for one LED at the standard 800 kHz
example : LED_BIT_COUNT 1 800000 = 72 + 132 := by decide
example : PWM_BYTE_COUNT 1 800000 = ((204 / 8 / 8 * 8) + 8) * 2 := by decide

/-- The condition `b & (1 << k)` of `ws2811_render` tests bit `k` of `b`. -/
theorem land_shift_ne_iff_testBit (b k : Nat) : b &&& (1 <<< k) ≠ 0 ↔ b.testBit k := by
  rw [Nat.shiftLeft_eq, one_mul, Nat.and_two_pow]
  cases h : b.testBit k
  · simp
  · simp [(Nat.two_pow_pos k).ne']

/-- Unfolding of `symbolForBit` for a non-inverted channel. -/
theorem symbolForBit_false_def (b k : Nat) :
    symbolForBit false b k = if b &&& (1 <<< k) ≠ 0 then SYMBOL_HIGH else SYMBOL_LOW := rfl

/-- For an inverted channel the emitted symbol is `~symbol & 0x7` of the
non-inverted one. -/
theorem symbolForBit_true_def (b k : Nat) :
    symbolForBit true b k = (symbolForBit false b k ^^^ 0xff) &&& 0x7 := rfl

/-- Claim C2: for a non-inverted channel, each color-byte bit taken from
most-significant to least-significant is emitted as exactly the 3 sub-bits
{1,1,0} when the bit is 1 and {1,0,0} when the bit is 0; consequently a
single LED of color 0x000000 encodes to 72 sub-bits that are 24 repetitions
of {1,0,0}, and color 0xFFFFFF to 72 sub-bits that are 24 repetitions of
{1,1,0}. -/
theorem c2_symbol_encoding :
    (∀ b k : Nat, symbolSubbits (symbolForBit false b k) =
        if b.testBit k then [true, true, false] else [true, false, false]) ∧
    channelSubbits ⟨18, 1, false, [0x000000]⟩ =
      List.flatten (List.replicate 24 [true, false, false]) ∧
    channelSubbits ⟨18, 1, false, [0xFFFFFF]⟩ =
      List.flatten (List.replicate 24 [true, true, false]) ∧
    (channelSubbits ⟨18, 1, false, [0x000000]⟩).length = 72 ∧
    (channelSubbits ⟨18, 1, false, [0xFFFFFF]⟩).length = 72 := by
  refine ⟨fun b k => ?_, by decide, by decide, by decide, by decide⟩
  rw [symbolForBit_false_def]
  by_cases h : b &&& (1 <<< k) ≠ 0
  · rw [if_pos h, if_pos ((land_shift_ne_iff_testBit b k).mp h)]; decide
  · rw [if_neg h, if_neg fun hh => h ((land_shift_ne_iff_testBit b k).mpr hh)]; decide

/-- Inverting a symbol complements its three sub-bits. -/
theorem symbolSubbits_invert (b k : Nat) :
    symbolSubbits (symbolForBit true b k) =
      (symbolSubbits (symbolForBit false b k)).map Bool.not := by
  rw [symbolForBit_true_def, symbolForBit_false_def]
  by_cases h : b &&& (1 <<< k) ≠ 0
  · rw [if_pos h]; decide
  · rw [if_neg h]; decide

/-- Claim C7: re-encoding the same colors with the channel's inversion flag
set yields, symbol by symbol, the bitwise complement (restricted to the 3
symbol bits) of the non-inverted encoding: every emitted sub-bit is negated. -/
theorem c7_inversion_complement :
    (∀ b k : Nat, symbolSubbits (symbolForBit true b k) =
        (symbolSubbits (symbolForBit false b k)).map Bool.not) ∧
    ∀ ch : ws2811_channel_t,
      channelSubbits ⟨ch.gpionum, ch.count, true, ch.leds⟩ =
        (channelSubbits ⟨ch.gpionum, ch.count, false, ch.leds⟩).map Bool.not := by
  refine ⟨symbolSubbits_invert, fun ch => ?_⟩
  simp only [channelSubbits, symbolSubbits_invert, ← List.map_flatMap]

/-! ### Claim C3: buffer sizing -/

/-- `x & 0xfffffff8` rounds `x` down to a multiple of 8, for 32-bit `x`. -/
theorem land_mask8_eq (x : Nat) (hx : x < 2 ^ 32) : x &&& 0xfffffff8 = x / 8 * 8 := by
  have hm : (0xfffffff8 : Nat) = (2 ^ 29 - 1) <<< 3 := by decide
  have hr : x / 8 * 8 = (x >>> 3) <<< 3 := by
    rw [Nat.shiftRight_eq_div_pow, Nat.shiftLeft_eq]
  rw [hm, hr]
  apply Nat.eq_of_testBit_eq
  intro i
  rw [Nat.testBit_land, Nat.testBit_shiftLeft, Nat.testBit_shiftLeft,
    Nat.testBit_two_pow_sub_one, Nat.testBit_shiftRight]
  rcases lt_or_ge i 3 with h3 | h3
  · have hn3 : ¬ (3 ≤ i) := by omega
    simp [hn3]
  · rcases lt_or_ge i 32 with h32 | h32
    · have h29 : i - 3 < 29 := by omega
      have hi : 3 + (i - 3) = i := by omega
      simp [h3, h29, hi, Bool.and_comm]
    · have hxb : x.testBit i = false :=
        Nat.testBit_lt_two_pow (lt_of_lt_of_le hx (Nat.pow_le_pow_right (by norm_num) h32))
      have h29 : ¬ (i - 3 < 29) := by omega
      have hi : 3 + (i - 3) = i := by omega
      simp [h3, h29, hi, hxb]

/-- Modelled from the spec: `requiredByteCount(n, freq)` is the required bit
count `n * 72 + (55 us at freq*3 symbol-clocks)` converted to bytes, rounded
down to a multiple of 8, padded by 2 words (8 bytes), and multiplied by the
number of PWM channels. -/
def requiredByteCount_spec (n freq : Nat) : Nat :=
  ((n * 72 + 55 * (freq * 3) / 1000000) / 8 / 8 * 8 + 8) * RPI_PWM_CHANNELS

/-- Claim C3: `PWM_BYTE_COUNT` equals the spec's `requiredByteCount` formula
(bits to bytes, rounded down to a multiple of 8, plus 8 padding bytes, times
the channel count), is deterministic, word-aligned, and monotonic in the LED
count.  The bound keeps the 32-bit `& ~0x7` mask faithful; the C operands are
32-bit integers. -/
theorem c3_byte_count_props (n1 n2 freq : Nat)
    (hmono : n1 ≤ n2) (hbound : LED_BIT_COUNT n2 freq < 2 ^ 32) :
    PWM_BYTE_COUNT n1 freq = requiredByteCount_spec n1 freq ∧
    (∀ m g : Nat, n1 = m → freq = g → PWM_BYTE_COUNT n1 freq = PWM_BYTE_COUNT m g) ∧
    4 ∣ PWM_BYTE_COUNT n1 freq ∧
    PWM_BYTE_COUNT n1 freq ≤ PWM_BYTE_COUNT n2 freq := by
  have hb1 : LED_BIT_COUNT n1 freq < 2 ^ 32 := by
    unfold LED_BIT_COUNT LED_RESET_uS at hbound ⊢
    have : n1 * 3 * 8 * 3 ≤ n2 * 3 * 8 * 3 := by omega
    omega
  have key : ∀ n : Nat, LED_BIT_COUNT n freq < 2 ^ 32 →
      PWM_BYTE_COUNT n freq = (LED_BIT_COUNT n freq / 8 / 8 * 8 + 8) * 2 := by
    intro n hn
    unfold PWM_BYTE_COUNT RPI_PWM_CHANNELS
    rw [Nat.shiftRight_eq_div_pow]
    rw [land_mask8_eq _ (by omega)]
  refine ⟨?_, fun m g hm hg => by rw [← hm, ← hg], ?_, ?_⟩
  · rw [key n1 hb1]
    unfold requiredByteCount_spec RPI_PWM_CHANNELS LED_BIT_COUNT LED_RESET_uS
    have : n1 * 3 * 8 * 3 = n1 * 72 := by omega
    omega
  · rw [key n1 hb1]
    omega
  · rw [key n1 hb1, key n2 hbound]
    unfold LED_BIT_COUNT LED_RESET_uS
    have : n1 * 3 * 8 * 3 ≤ n2 * 3 * 8 * 3 := by omega
    omega

/-- Concrete instantiation of `c3_byte_count_props` at one and two LEDs at
800 kHz. -/
theorem c3_byte_count_props_witness :
    (1 ≤ 2 ∧ LED_BIT_COUNT 2 800000 < 2 ^ 32) ∧
    (PWM_BYTE_COUNT 1 800000 = requiredByteCount_spec 1 800000 ∧
     (∀ m g : Nat, 1 = m → 800000 = g → PWM_BYTE_COUNT 1 800000 = PWM_BYTE_COUNT m g) ∧
     4 ∣ PWM_BYTE_COUNT 1 800000 ∧
     PWM_BYTE_COUNT 1 800000 ≤ PWM_BYTE_COUNT 2 800000) :=
  ⟨⟨by decide, by decide⟩, c3_byte_count_props 1 2 800000 (by decide) (by decide)⟩

/-! ### Buffer-write lemmas for the render loop -/

/-- `List.set` leaves every other index unchanged. -/
theorem getD_set_ne (l : List Nat) (j i v : Nat) (h : j ≠ i) :
    (l.set j v).getD i 0 = l.getD i 0 := by
  rw [List.getD_eq_getElem?_getD, List.getD_eq_getElem?_getD, List.getElem?_set_ne h]

/-- Closed form of one `writeSubbit` step: it writes word `wordpos` and
advances the cursor by one sub-bit. -/
theorem writeSubbit_eq (buf : List Nat) (wp bp : Nat) (bit : Bool) :
    writeSubbit (buf, wp, bp) bit =
      (buf.set wp (if bit then (buf.getD wp 0 &&& (0xffffffff ^^^ (1 <<< bp))) ||| (1 <<< bp)
                   else buf.getD wp 0 &&& (0xffffffff ^^^ (1 <<< bp))),
       if bp = 0 then wp + 2 else wp,
       if bp = 0 then 31 else bp - 1) := by
  unfold writeSubbit
  by_cases h : bp = 0 <;> simp [h]

/-- Writing a sub-bit stream starting at word `wp` never touches a word of
the other parity: `wordpos` only ever advances by 2. -/
theorem writeBits_parity (bits : List Bool) :
    ∀ (buf : List Nat) (wp bp i : Nat), i % 2 ≠ wp % 2 →
      (writeBits (buf, wp, bp) bits).1.getD i 0 = buf.getD i 0 := by
  induction bits with
  | nil => intro buf wp bp i h; rfl
  | cons b rest ih =>
    intro buf wp bp i h
    show (writeBits (writeSubbit (buf, wp, bp) b) rest).1.getD i 0 = _
    rw [writeSubbit_eq]
    have hne : wp ≠ i := fun e => h (by rw [e])
    by_cases hbp : bp = 0
    · rw [if_pos hbp, if_pos hbp]
      rw [ih _ (wp + 2) 31 i (by omega)]
      exact getD_set_ne _ _ _ _ hne
    · rw [if_neg hbp, if_neg hbp]
      rw [ih _ wp (bp - 1) i h]
      exact getD_set_ne _ _ _ _ hne

/-- After writing `n` sub-bits from in-word position `bp`, the in-word
position is `31 - ((31 - bp + n) % 32)`. -/
theorem writeBits_bitpos (bits : List Bool) :
    ∀ (buf : List Nat) (wp bp : Nat), bp ≤ 31 →
      (writeBits (buf, wp, bp) bits).2.2 = 31 - (31 - bp + bits.length) % 32 := by
  induction bits with
  | nil => intro buf wp bp h; show bp = _; simp; omega
  | cons b rest ih =>
    intro buf wp bp h
    show (writeBits (writeSubbit (buf, wp, bp) b) rest).2.2 = _
    rw [writeSubbit_eq, List.length_cons]
    by_cases hbp : bp = 0
    · rw [if_pos hbp, if_pos hbp, ih _ _ 31 (by omega)]
      subst hbp; omega
    · rw [if_neg hbp, if_neg hbp, ih _ _ (bp - 1) (by omega)]
      omega

/-- Words at or beyond `wp + 2*m` are untouched when the stream fits into
`m` words of the channel's parity class. -/
theorem writeBits_getD_of_ge (bits : List Bool) :
    ∀ (buf : List Nat) (wp bp i m : Nat), bp ≤ 31 →
      bits.length + (31 - bp) ≤ 32 * m → wp + 2 * m ≤ i →
      (writeBits (buf, wp, bp) bits).1.getD i 0 = buf.getD i 0 := by
  induction bits with
  | nil => intro buf wp bp i m _ _ _; rfl
  | cons b rest ih =>
    intro buf wp bp i m hbp hlen hi
    rw [List.length_cons] at hlen
    show (writeBits (writeSubbit (buf, wp, bp) b) rest).1.getD i 0 = _
    rw [writeSubbit_eq]
    have hne : wp ≠ i := by omega
    by_cases hbp0 : bp = 0
    · rw [if_pos hbp0, if_pos hbp0]
      rw [ih _ (wp + 2) 31 i (m - 1) (by omega) (by omega) (by omega)]
      exact getD_set_ne _ _ _ _ hne
    · rw [if_neg hbp0, if_neg hbp0]
      rw [ih _ wp (bp - 1) i m (by omega) (by omega) hi]
      exact getD_set_ne _ _ _ _ hne

/-- Sum of a constant-valued map. -/
theorem sum_map_const_nat {α : Type} (l : List α) (c : Nat) :
    (l.map fun _ => c).sum = c * l.length := by
  induction l with
  | nil => simp
  | cons a t ih => simp [ih]; ring

/-- Each LED contributes exactly 72 sub-bits (3 bytes, 8 bits, 3 sub-bits). -/
theorem subbits_per_led (invert : Bool) (led : Nat) :
    ((colorBytes led).flatMap fun b => (List.range 8).reverse.flatMap fun k =>
        symbolSubbits (symbolForBit invert b k)).length = 72 := by
  have h1 : ∀ b : Nat, ((List.range 8).reverse.flatMap fun k =>
      symbolSubbits (symbolForBit invert b k)).length = 24 := by
    intro b
    rw [List.length_flatMap]
    have h3 : ∀ k : Nat, (List.length ∘ fun k => symbolSubbits (symbolForBit invert b k)) k = 3 :=
      fun k => rfl
    rw [List.map_congr_left fun k _ => h3 k, sum_map_const_nat]
    simp
  rw [List.length_flatMap]
  simp [colorBytes, h1]

/-- A channel with `count` LEDs available contributes `72 * count` sub-bits. -/
theorem channelSubbits_length (ch : ws2811_channel_t) (h : ch.count ≤ ch.leds.length) :
    (channelSubbits ch).length = 72 * ch.count := by
  unfold channelSubbits
  rw [List.length_flatMap]
  have h72 : ∀ led : Nat, (List.length ∘ fun led => (colorBytes led).flatMap fun b =>
      (List.range 8).reverse.flatMap fun k =>
        symbolSubbits (symbolForBit ch.invert b k)) led = 72 :=
    fun led => subbits_per_led ch.invert led
  rw [List.map_congr_left fun led _ => h72 led, sum_map_const_nat]
  rw [List.length_take]
  omega

/-- Claim C5: with two enabled channels, encoding channel 0 never writes an
odd-indexed buffer word, and encoding channel 1 never writes an even-indexed
buffer word: word parity selects the channel. -/
theorem c5_word_interleave (ch0 ch1 : ws2811_channel_t) (buf : List Nat) (i j : Nat)
    (hi : i % 2 = 1) (hj : j % 2 = 0) :
    (writeBits (buf, 0, 31) (channelSubbits ch0)).1.getD i 0 = buf.getD i 0 ∧
    (ws2811_render [ch0, ch1] buf).getD j 0 =
      (writeBits (buf, 0, 31) (channelSubbits ch0)).1.getD j 0 := by
  refine ⟨writeBits_parity (channelSubbits ch0) buf 0 31 i (by omega), ?_⟩
  show (writeBits ((writeBits (buf, 0, 31) (channelSubbits ch0)).1, 1,
      (writeBits (buf, 0, 31) (channelSubbits ch0)).2.2) (channelSubbits ch1)).1.getD j 0 = _
  exact writeBits_parity (channelSubbits ch1) _ 1 _ j (by omega)

/-- Concrete instantiation of `c5_word_interleave`: channel 0 leaves word 3
unchanged and channel 1 leaves word 2 unchanged. -/
theorem c5_word_interleave_witness :
    ((3 : Nat) % 2 = 1 ∧ (2 : Nat) % 2 = 0) ∧
    ((writeBits ((List.replicate 12 0 : List Nat), 0, 31)
        (channelSubbits ⟨18, 1, false, [0x010203]⟩)).1.getD 3 0 =
      (List.replicate 12 0 : List Nat).getD 3 0 ∧
     (ws2811_render [⟨18, 1, false, [0x010203]⟩, ⟨13, 1, true, [0xAABBCC]⟩]
        (List.replicate 12 0)).getD 2 0 =
      (writeBits ((List.replicate 12 0 : List Nat), 0, 31)
        (channelSubbits ⟨18, 1, false, [0x010203]⟩)).1.getD 2 0) :=
  ⟨⟨rfl, rfl⟩, c5_word_interleave ⟨18, 1, false, [0x010203]⟩ ⟨13, 1, true, [0xAABBCC]⟩
    (List.replicate 12 0) 3 2 rfl rfl⟩

/-- Claim C6: `bitpos` is initialized to 31 once and carries over between
channels, so when channel 0's 72*count0 sub-bits are not a multiple of 32,
channel 1's stream starts at in-word bit position `31 - (72*count0 % 32)` of
its first word, which is not the most-significant bit. -/
theorem c6_bitpos_carry (ch0 ch1 : ws2811_channel_t) (buf : List Nat)
    (hc : ch0.count ≤ ch0.leds.length) (hnz : 72 * ch0.count % 32 ≠ 0) :
    ws2811_render [ch0, ch1] buf =
      (writeBits ((writeBits (buf, 0, 31) (channelSubbits ch0)).1, 1,
        31 - 72 * ch0.count % 32) (channelSubbits ch1)).1 ∧
    31 - 72 * ch0.count % 32 ≠ 31 := by
  have hbp := writeBits_bitpos (channelSubbits ch0) buf 0 31 (by omega)
  rw [channelSubbits_length ch0 hc] at hbp
  constructor
  · show (writeBits ((writeBits (buf, 0, 31) (channelSubbits ch0)).1, 1,
        (writeBits (buf, 0, 31) (channelSubbits ch0)).2.2) (channelSubbits ch1)).1 = _
    rw [hbp]
    norm_num
  · omega

/-- Concrete instantiation of `c6_bitpos_carry` with one LED on channel 0:
channel 1 starts at bit position 23 of word 1. -/
theorem c6_bitpos_carry_witness :
    ((1 : Nat) ≤ 1 ∧ 72 * 1 % 32 ≠ 0) ∧
    (ws2811_render [⟨18, 1, false, [3]⟩, ⟨13, 1, false, [5]⟩] (List.replicate 12 0) =
        (writeBits ((writeBits ((List.replicate 12 0 : List Nat), 0, 31)
          (channelSubbits ⟨18, 1, false, [3]⟩)).1, 1,
          31 - 72 * 1 % 32) (channelSubbits ⟨13, 1, false, [5]⟩)).1 ∧
     31 - 72 * 1 % 32 ≠ 31) :=
  ⟨⟨by decide, by decide⟩, c6_bitpos_carry ⟨18, 1, false, [3]⟩ ⟨13, 1, false, [5]⟩
    (List.replicate 12 0) (by decide) (by decide)⟩

/-! ### Claim C8: buffer initialization and the idle region -/

/-- Largest LED count across the channels (`max_channel_led_count`). -/
def max_channel_led_count (chans : List ws2811_channel_t) : Nat :=
  chans.foldl (fun m ch => max m ch.count) 0

/-- Inner loop of `pwm_raw_init` for one channel: starting at word `wordpos`
(the channel index), write `wordcount` words in steps of 2, storing `~0` for
an inverted channel and `0` otherwise. -/
def init_channel_words (inv : Bool) : Nat → Nat → List Nat → List Nat
  | 0, _, buf => buf
  | n + 1, wordpos, buf =>
      init_channel_words inv n (wordpos + 2) (buf.set wordpos (if inv then 0xffffffff else 0))

/-- Channel loop of `pwm_raw_init`: `wordpos` starts at the channel index. -/
def pwm_init_loop (wordcount : Nat) : Nat → List ws2811_channel_t → List Nat → List Nat
  | _, [], buf => buf
  | chan, ch :: rest, buf =>
      pwm_init_loop wordcount (chan + 1) rest (init_channel_words ch.invert wordcount chan buf)

/-- `pwm_raw_init`: per channel,
`wordcount = PWM_BYTE_COUNT(maxcount, freq) / sizeof(uint32_t) / RPI_PWM_CHANNELS`. -/
def pwm_raw_init (chans : List ws2811_channel_t) (freq : Nat) (buf : List Nat) : List Nat :=
  pwm_init_loop (PWM_BYTE_COUNT (max_channel_led_count chans) freq / 4 / RPI_PWM_CHANNELS)
    0 chans buf

/-- Reading back the word just set. -/
theorem getD_set_same (l : List Nat) (i v : Nat) (h : i < l.length) :
    (l.set i v).getD i 0 = v := by
  rw [List.getD_eq_getElem?_getD, List.getElem?_set_self h]
  rfl

/-- `init_channel_words` preserves the buffer length. -/
theorem init_channel_words_length (inv : Bool) :
    ∀ (n wp : Nat) (buf : List Nat), (init_channel_words inv n wp buf).length = buf.length := by
  intro n
  induction n with
  | zero => intro wp buf; rfl
  | succ k ih => intro wp buf; rw [init_channel_words, ih, List.length_set]

/-- `init_channel_words` leaves words of the other parity class and words
outside its range unchanged. -/
theorem init_channel_words_getD_untouched (inv : Bool) :
    ∀ (n wp i : Nat) (buf : List Nat), i % 2 ≠ wp % 2 ∨ i < wp ∨ wp + 2 * n ≤ i →
      (init_channel_words inv n wp buf).getD i 0 = buf.getD i 0 := by
  intro n
  induction n with
  | zero => intro wp i buf _; rfl
  | succ k ih =>
    intro wp i buf h
    rw [init_channel_words]
    have hne : wp ≠ i := by omega
    rw [ih (wp + 2) i _ (by omega)]
    exact getD_set_ne _ _ _ _ hne

/-- `init_channel_words` stores the channel's idle word at every word of its
parity class inside its range. -/
theorem init_channel_words_getD_touched (inv : Bool) :
    ∀ (n wp i : Nat) (buf : List Nat), wp ≤ i → i < wp + 2 * n → i % 2 = wp % 2 →
      i < buf.length →
      (init_channel_words inv n wp buf).getD i 0 = (if inv then 0xffffffff else 0) := by
  intro n
  induction n with
  | zero => intro wp i buf h1 h2 h3 h4; omega
  | succ k ih =>
    intro wp i buf h1 h2 h3 h4
    rw [init_channel_words]
    by_cases hi : i = wp
    · subst hi
      rw [init_channel_words_getD_untouched inv k (i + 2) i _ (by omega)]
      exact getD_set_same _ _ _ h4
    · rw [ih (wp + 2) i _ (by omega) (by omega) (by omega) (by rw [List.length_set]; omega)]

/-- One render call leaves every word beyond the encoded region of its
parity class unchanged. -/
theorem render_preserves_beyond (ch0 ch1 : ws2811_channel_t) (b : List Nat) (w : Nat)
    (h0 : ch0.count ≤ ch0.leds.length) (h1 : ch1.count ≤ ch1.leds.length)
    (hw : (w % 2 = 0 ∧ 2 * ((72 * ch0.count + 31) / 32) ≤ w) ∨
          (w % 2 = 1 ∧ 1 + 2 * ((72 * ch0.count % 32 + 72 * ch1.count + 31) / 32) ≤ w)) :
    (ws2811_render [ch0, ch1] b).getD w 0 = b.getD w 0 := by
  have hbp : (writeBits (b, 0, 31) (channelSubbits ch0)).2.2 = 31 - 72 * ch0.count % 32 := by
    rw [writeBits_bitpos _ _ _ _ (by omega), channelSubbits_length ch0 h0]
    omega
  show (writeBits ((writeBits (b, 0, 31) (channelSubbits ch0)).1, 1,
      (writeBits (b, 0, 31) (channelSubbits ch0)).2.2) (channelSubbits ch1)).1.getD w 0 = _
  rw [hbp]
  have hl0 := channelSubbits_length ch0 h0
  have hl1 := channelSubbits_length ch1 h1
  rcases hw with ⟨he, hge⟩ | ⟨ho, hge⟩
  · rw [writeBits_parity (channelSubbits ch1) _ 1 _ w (by omega)]
    exact writeBits_getD_of_ge (channelSubbits ch0) b 0 31 w ((72 * ch0.count + 31) / 32)
      (by omega) (by omega) (by omega)
  · rw [writeBits_getD_of_ge (channelSubbits ch1) _ 1 _ w
      ((72 * ch0.count % 32 + 72 * ch1.count + 31) / 32) (by omega) (by omega) (by omega)]
    exact writeBits_parity (channelSubbits ch0) b 0 31 w (by omega)

/-- Claim C8: `pwm_raw_init` sets every word belonging to a channel to 0 for
a non-inverted channel and to all-ones for an inverted one, and any number of
subsequent render calls with fixed LED counts leaves every word beyond the
encoded region at that allocation-time idle value. -/
theorem c8_idle_region (ch0 ch1 : ws2811_channel_t) (freq : Nat) (buf0 : List Nat)
    (n w1 w2 : Nat)
    (h0 : ch0.count ≤ ch0.leds.length) (h1 : ch1.count ≤ ch1.leds.length)
    (hbuf : 2 * (PWM_BYTE_COUNT (max_channel_led_count [ch0, ch1]) freq / 4 / RPI_PWM_CHANNELS)
      ≤ buf0.length)
    (hw1 : w1 < 2 * (PWM_BYTE_COUNT (max_channel_led_count [ch0, ch1]) freq / 4 / RPI_PWM_CHANNELS))
    (hw2 : (w2 % 2 = 0 ∧ 2 * ((72 * ch0.count + 31) / 32) ≤ w2) ∨
           (w2 % 2 = 1 ∧ 1 + 2 * ((72 * ch0.count % 32 + 72 * ch1.count + 31) / 32) ≤ w2)) :
    (pwm_raw_init [ch0, ch1] freq buf0).getD w1 0 =
      (if (if w1 % 2 = 0 then ch0 else ch1).invert then 0xffffffff else 0) ∧
    ((fun b => ws2811_render [ch0, ch1] b)^[n]
        (pwm_raw_init [ch0, ch1] freq buf0)).getD w2 0 =
      (pwm_raw_init [ch0, ch1] freq buf0).getD w2 0 := by
  constructor
  · show (init_channel_words ch1.invert _ 1 (init_channel_words ch0.invert _ 0 buf0)).getD w1 0 = _
    by_cases hp : w1 % 2 = 0
    · rw [if_pos hp]
      rw [init_channel_words_getD_untouched ch1.invert _ 1 w1 _ (by omega)]
      exact init_channel_words_getD_touched ch0.invert _ 0 w1 buf0 (by omega) (by omega)
        (by omega) (by omega)
    · rw [if_neg hp]
      refine init_channel_words_getD_touched ch1.invert _ 1 w1 _ (by omega) (by omega)
        (by omega) ?_
      rw [init_channel_words_length]
      omega
  · induction n with
    | zero => rfl
    | succ k ih =>
      rw [Function.iterate_succ_apply']
      rw [render_preserves_beyond ch0 ch1 _ w2 h0 h1 hw2]
      exact ih

/-- Concrete instantiation of `c8_idle_region`: one LED per channel at
800 kHz gives 8 words per channel; word 15 (channel 1, inverted) reads
all-ones after initialization, and word 6 (channel 0, beyond its 3 encoded
words) is untouched by two render calls. -/
theorem c8_idle_region_witness :
    ((1 : Nat) ≤ 1 ∧ (1 : Nat) ≤ 1 ∧
     2 * (PWM_BYTE_COUNT (max_channel_led_count
       [⟨18, 1, false, [3]⟩, ⟨13, 1, true, [5]⟩]) 800000 / 4 / RPI_PWM_CHANNELS)
       ≤ (List.replicate 16 0 : List Nat).length ∧
     15 < 2 * (PWM_BYTE_COUNT (max_channel_led_count
       [⟨18, 1, false, [3]⟩, ⟨13, 1, true, [5]⟩]) 800000 / 4 / RPI_PWM_CHANNELS) ∧
     ((6 : Nat) % 2 = 0 ∧ 2 * ((72 * 1 + 31) / 32) ≤ 6)) ∧
    ((pwm_raw_init [⟨18, 1, false, [3]⟩, ⟨13, 1, true, [5]⟩] 800000
        (List.replicate 16 0)).getD 15 0 =
      (if (if 15 % 2 = 0 then (⟨18, 1, false, [3]⟩ : ws2811_channel_t)
           else ⟨13, 1, true, [5]⟩).invert then 0xffffffff else 0) ∧
     ((fun b => ws2811_render [⟨18, 1, false, [3]⟩, ⟨13, 1, true, [5]⟩] b)^[2]
        (pwm_raw_init [⟨18, 1, false, [3]⟩, ⟨13, 1, true, [5]⟩] 800000
          (List.replicate 16 0))).getD 6 0 =
      (pwm_raw_init [⟨18, 1, false, [3]⟩, ⟨13, 1, true, [5]⟩] 800000
        (List.replicate 16 0)).getD 6 0) :=
  ⟨⟨by decide, by decide, by decide, by decide, by decide, by decide⟩,
   c8_idle_region ⟨18, 1, false, [3]⟩ ⟨13, 1, true, [5]⟩ 800000 (List.replicate 16 0)
     2 15 6 (by decide) (by decide) (by decide) (by decide) (Or.inl ⟨by decide, by decide⟩)⟩

/-! ### Claim C4: the DMA descriptor chain builder of `setup_pwm` -/

/-- One DMA control block (`dma_cb_t`): transfer info flags, source and
destination bus addresses, transfer length, stride and the bus address of
the next control block (0 terminates the chain). -/
structure dma_cb_t where
  ti : Nat
  source_ad : Nat
  dest_ad : Nat
  txfr_len : Nat
  stride : Nat
  nextconbk : Nat
deriving DecidableEq, Repr

/-- Modelled from the spec: the bus address of descriptor slot `j`
(`addr_to_bus(dma_cb + j)`, resolved by the external address translator);
only its nonzero-ness matters to the claims. -/
def cb_bus (j : Nat) : Nat := j + 1

/-- Modelled from the spec: the transfer-information flag word (32-bit
transfers, wait for response, destination DREQ pacing on the PWM map,
source increment); the flag bit values live in a header outside the core
source and are irrelevant to the claims. -/
def RPI_DMA_TI_FLAGS : Nat := 0x40448

/-- Modelled from the spec: the fixed bus address of the PWM FIFO data
register, the destination of every descriptor. -/
def PWM_FIF1_BUS : Nat := 0x7e20c018

/-- The descriptor-filling loop of `setup_pwm`: while a next page exists and
bytes remain, emit one descriptor of length `min(PAGE_SIZE, byte_count)`
whose `nextconbk` points at the following slot; the Boolean records whether
the loop ended through its `break` (next page exhausted right after the
final write), in which case the closing `dma_cb->nextconbk = 0` store hits
the last written descriptor rather than a later, unwritten slot. -/
def chain_loop (pageSize : Nat) : Nat → List Nat → Nat → List dma_cb_t × Bool
  | _, [], _ => ([], false)
  | idx, p :: rest, byte_count =>
      if byte_count = 0 then ([], false)
      else
        let page_bytes := min pageSize byte_count
        let cb : dma_cb_t :=
          { ti := RPI_DMA_TI_FLAGS, source_ad := p, dest_ad := PWM_FIF1_BUS,
            txfr_len := page_bytes, stride := 0, nextconbk := cb_bus (idx + 1) }
        match rest with
        | [] => ([cb], true)
        | q :: rest2 =>
            let r := chain_loop pageSize (idx + 1) (q :: rest2) (byte_count - page_bytes)
            (cb :: r.1, r.2)

/-- The effect of the closing `dma_cb->nextconbk = 0` when the cursor still
rests on the last written descriptor. -/
def zero_last_next : List dma_cb_t → List dma_cb_t
  | [] => []
  | [cb] => [{ cb with nextconbk := 0 }]
  | cb :: cb2 :: rest => cb :: zero_last_next (cb2 :: rest)

/-- The chain built by `setup_pwm`: descriptors from the loop, with the last
one terminated when the loop ended via `break`. -/
def setup_pwm_chain (pageSize : Nat) (pages : List Nat) (byte_count : Nat) :
    List dma_cb_t × Bool :=
  let r := chain_loop pageSize 0 pages byte_count
  (if r.2 then zero_last_next r.1 else r.1, r.2)

/-- `zero_last_next` keeps the chain length. -/
theorem zero_last_next_length : ∀ l : List dma_cb_t, (zero_last_next l).length = l.length
  | [] => rfl
  | [cb] => rfl
  | cb :: cb2 :: rest => by
      show (cb :: zero_last_next (cb2 :: rest)).length = _
      rw [List.length_cons, List.length_cons, zero_last_next_length (cb2 :: rest)]

/-- `zero_last_next` keeps every transfer length. -/
theorem zero_last_next_map_txfr :
    ∀ l : List dma_cb_t,
      (zero_last_next l).map (fun cb => cb.txfr_len) = l.map fun cb => cb.txfr_len
  | [] => rfl
  | [cb] => rfl
  | cb :: cb2 :: rest => by
      show cb.txfr_len :: (zero_last_next (cb2 :: rest)).map (fun cb => cb.txfr_len) = _
      rw [zero_last_next_map_txfr (cb2 :: rest)]
      rfl

/-- After `zero_last_next`, the final descriptor's next field is zero. -/
theorem zero_last_next_getLast :
    ∀ l : List dma_cb_t, l ≠ [] →
      ((zero_last_next l).getLast?.map fun cb => cb.nextconbk) = some 0
  | [], h => absurd rfl h
  | [cb], _ => rfl
  | cb :: cb2 :: rest, _ => by
      have hne : zero_last_next (cb2 :: rest) ≠ [] := by
        intro he
        have hl := zero_last_next_length (cb2 :: rest)
        rw [he] at hl
        simp at hl
      obtain ⟨x, xs, hx⟩ : ∃ x xs, zero_last_next (cb2 :: rest) = x :: xs := by
        cases hz : zero_last_next (cb2 :: rest) with
        | nil => exact absurd hz hne
        | cons x xs => exact ⟨x, xs, rfl⟩
      show ((cb :: zero_last_next (cb2 :: rest)).getLast?.map fun cb => cb.nextconbk) = _
      rw [hx, List.getLast?_cons_cons, ← hx]
      exact zero_last_next_getLast (cb2 :: rest) (by simp)

/-- Loop invariant of `chain_loop` when the page sequence covers the byte
count exactly: the loop ends via its `break`, emits one descriptor per page,
their lengths sum to the byte count, and descriptor `i` transfers
`min(pageSize, bytesRemaining)` bytes. -/
theorem chain_loop_exact (pageSize : Nat) (hps : 0 < pageSize) :
    ∀ (pages : List Nat) (bc idx : Nat), 0 < bc →
      bc ≤ pages.length * pageSize →
      (pages.length - 1) * pageSize < bc →
      (chain_loop pageSize idx pages bc).2 = true ∧
      (chain_loop pageSize idx pages bc).1.length = pages.length ∧
      ((chain_loop pageSize idx pages bc).1.map (fun cb => cb.txfr_len)).sum = bc ∧
      (∀ i (h : i < (chain_loop pageSize idx pages bc).1.length),
        ((chain_loop pageSize idx pages bc).1[i]).txfr_len =
          min pageSize (bc - pageSize * i)) := by
  intro pages
  induction pages with
  | nil =>
    intro bc idx h1 h2 h3
    simp at h2
    omega
  | cons p rest ih =>
    intro bc idx h1 h2 h3
    rw [chain_loop, if_neg (by omega : ¬ bc = 0)]
    cases rest with
    | nil =>
      have hbc : bc ≤ pageSize := by simpa using h2
      have hmin : min pageSize bc = bc := by omega
      refine ⟨rfl, rfl, ?_, ?_⟩
      · simp [hmin]
      · intro i h
        have hi0 : i = 0 := by
          simp at h
          omega
        subst hi0
        simp [hmin]
    | cons q rest2 =>
      have e1 : (rest2.length + 1 + 1) * pageSize =
          rest2.length * pageSize + pageSize + pageSize := by ring
      have e2 : (rest2.length + 1 + 1 - 1) * pageSize = rest2.length * pageSize + pageSize := by
        simp
        ring
      rw [List.length_cons, List.length_cons] at h2 h3
      rw [e1] at h2
      rw [e2] at h3
      obtain ⟨t, ht⟩ : ∃ t, rest2.length * pageSize = t := ⟨_, rfl⟩
      rw [ht] at h2 h3
      have hmin : min pageSize bc = pageSize := by omega
      simp only [hmin]
      have hrec := ih (bc - pageSize) (idx + 1) (by omega)
        (by rw [List.length_cons, Nat.add_mul, one_mul, ht]; omega)
        (by rw [List.length_cons, Nat.add_sub_cancel, ht]; omega)
      obtain ⟨hr2, hrlen, hrsum, hrget⟩ := hrec
      refine ⟨hr2, ?_, ?_, ?_⟩
      · simp [hrlen]
      · simp [hrsum]
        omega
      · intro i h
        cases i with
        | zero => simp [hmin]
        | succ j =>
          have hj : j < (chain_loop pageSize (idx + 1) (q :: rest2) (bc - pageSize)).1.length := by
            simp at h
            omega
          have hgj := hrget j hj
          simp only [List.getElem_cons_succ]
          rw [hgj]
          have e4 : pageSize * (j + 1) = pageSize * j + pageSize := by ring
          rw [e4]
          obtain ⟨u, hu⟩ : ∃ u, pageSize * j = u := ⟨_, rfl⟩
          rw [hu]
          omega

/-- Exact covering by `ceil(bc / ps)` pages, as the two linear bounds the
chain induction needs. -/
theorem ceil_bounds (ps bc : Nat) (hps : 0 < ps) (hbc : 0 < bc) :
    bc ≤ (bc + ps - 1) / ps * ps ∧ ((bc + ps - 1) / ps - 1) * ps < bc := by
  have h1 : (bc + ps - 1) / ps * ps ≤ bc + ps - 1 := Nat.div_mul_le_self _ _
  have h2 : bc + ps - 1 < ps * ((bc + ps - 1) / ps + 1) := Nat.lt_mul_div_succ _ hps
  have h3 : ((bc + ps - 1) / ps - 1) * ps = (bc + ps - 1) / ps * ps - ps := by
    rw [Nat.sub_mul, one_mul]
  have h4 : ps * ((bc + ps - 1) / ps + 1) = (bc + ps - 1) / ps * ps + ps := by ring
  rw [h4] at h2
  rw [h3]
  obtain ⟨t, ht⟩ : ∃ t, (bc + ps - 1) / ps * ps = t := ⟨_, rfl⟩
  rw [ht] at h1 h2 ⊢
  omega

/-- `PWM_BYTE_COUNT` is always positive. -/
theorem PWM_BYTE_COUNT_pos (n f : Nat) : 0 < PWM_BYTE_COUNT n f := by
  unfold PWM_BYTE_COUNT RPI_PWM_CHANNELS
  omega

/-- Claim C4: for a page sequence exactly covering
`PWM_BYTE_COUNT(maxcount, freq)` bytes (one page per `ceil(byteCount /
pageSize)`), the chain builder ends via its break, emits one descriptor per
touched page with transfer length `min(pageSize, bytesRemaining)`, the sum
of the transfer lengths equals the byte count exactly, the chain has
`ceil(byteCount / pageSize)` descriptors, and the final descriptor's next
field is zero. -/
theorem c4_chain_props (pageSize maxcount freq : Nat) (pages : List Nat)
    (hps : 0 < pageSize)
    (hcover : pages.length = (PWM_BYTE_COUNT maxcount freq + pageSize - 1) / pageSize) :
    (setup_pwm_chain pageSize pages (PWM_BYTE_COUNT maxcount freq)).2 = true ∧
    (setup_pwm_chain pageSize pages (PWM_BYTE_COUNT maxcount freq)).1.length =
      (PWM_BYTE_COUNT maxcount freq + pageSize - 1) / pageSize ∧
    (((setup_pwm_chain pageSize pages (PWM_BYTE_COUNT maxcount freq)).1.map
        fun cb => cb.txfr_len).sum = PWM_BYTE_COUNT maxcount freq) ∧
    (∀ i (h : i < (setup_pwm_chain pageSize pages (PWM_BYTE_COUNT maxcount freq)).1.length),
      ((setup_pwm_chain pageSize pages (PWM_BYTE_COUNT maxcount freq)).1[i]).txfr_len =
        min pageSize (PWM_BYTE_COUNT maxcount freq - pageSize * i)) ∧
    ((setup_pwm_chain pageSize pages (PWM_BYTE_COUNT maxcount freq)).1.getLast?.map
        fun cb => cb.nextconbk) = some 0 := by
  have hbc : 0 < PWM_BYTE_COUNT maxcount freq := PWM_BYTE_COUNT_pos maxcount freq
  obtain ⟨hb1, hb2⟩ := ceil_bounds pageSize (PWM_BYTE_COUNT maxcount freq) hps hbc
  rw [← hcover] at hb1 hb2
  obtain ⟨h2, hlen, hsum, hget⟩ :=
    chain_loop_exact pageSize hps pages (PWM_BYTE_COUNT maxcount freq) 0 hbc hb1 hb2
  have hsetup : setup_pwm_chain pageSize pages (PWM_BYTE_COUNT maxcount freq) =
      (zero_last_next (chain_loop pageSize 0 pages (PWM_BYTE_COUNT maxcount freq)).1,
        true) := by
    unfold setup_pwm_chain
    simp [h2]
  have hne : (chain_loop pageSize 0 pages (PWM_BYTE_COUNT maxcount freq)).1 ≠ [] := by
    intro he
    rw [he] at hlen
    simp at hlen
    rw [← hlen] at hcover
    have hone : 1 ≤ (PWM_BYTE_COUNT maxcount freq + pageSize - 1) / pageSize := by
      rw [Nat.one_le_div_iff hps]
      omega
    omega
  rw [hsetup]
  refine ⟨rfl, ?_, ?_, ?_, ?_⟩
  · rw [zero_last_next_length, hlen, hcover]
  · rw [zero_last_next_map_txfr, hsum]
  · intro i h
    rw [zero_last_next_length] at h
    have hlen2 : i < ((zero_last_next
        (chain_loop pageSize 0 pages (PWM_BYTE_COUNT maxcount freq)).1).map
        fun cb => cb.txfr_len).length := by
      rw [List.length_map, zero_last_next_length]
      exact h
    have hfi := List.getElem_of_eq (zero_last_next_map_txfr
      (chain_loop pageSize 0 pages (PWM_BYTE_COUNT maxcount freq)).1) hlen2
    rw [List.getElem_map, List.getElem_map] at hfi
    rw [hfi]
    exact hget i h
  · exact zero_last_next_getLast _ hne

/-- Concrete instantiation of `c4_chain_props`: 64 required bytes for one
LED at 800 kHz fit a single 4096-byte page. -/
theorem c4_chain_props_witness :
    ((0 : Nat) < 4096 ∧
     ([7] : List Nat).length = (PWM_BYTE_COUNT 1 800000 + 4096 - 1) / 4096) ∧
    ((setup_pwm_chain 4096 [7] (PWM_BYTE_COUNT 1 800000)).2 = true ∧
     (setup_pwm_chain 4096 [7] (PWM_BYTE_COUNT 1 800000)).1.length =
       (PWM_BYTE_COUNT 1 800000 + 4096 - 1) / 4096 ∧
     (((setup_pwm_chain 4096 [7] (PWM_BYTE_COUNT 1 800000)).1.map
         fun cb => cb.txfr_len).sum = PWM_BYTE_COUNT 1 800000) ∧
     (∀ i (h : i < (setup_pwm_chain 4096 [7] (PWM_BYTE_COUNT 1 800000)).1.length),
       ((setup_pwm_chain 4096 [7] (PWM_BYTE_COUNT 1 800000)).1[i]).txfr_len =
         min 4096 (PWM_BYTE_COUNT 1 800000 - 4096 * i)) ∧
     ((setup_pwm_chain 4096 [7] (PWM_BYTE_COUNT 1 800000)).1.getLast?.map
         fun cb => cb.nextconbk) = some 0) :=
  ⟨⟨by decide, by decide⟩, c4_chain_props 4096 1 800000 [7] (by decide) (by decide)⟩

/-! ### Claim C9: cleanup and shutdown lifecycle -/

/-- The owned allocations of `ws2811_device_t` that cleanup releases: the
raw DMA buffer, the DMA control-block storage, and the device record itself;
allocations are identified by abstract tokens. -/
structure ws2811_device_model where
  pwm_raw : Option Nat
  dma_cb : Option Nat
  selfTok : Nat
deriving DecidableEq, Repr

/-- The owned state of a `ws2811_t`: the two channels' LED arrays and the
device record. -/
structure ws2811_model where
  leds0 : Option Nat
  leds1 : Option Nat
  device : Option ws2811_device_model
deriving DecidableEq, Repr

/-- `ws2811_cleanup`: free each non-null channel LED array and null the
field; when the device record exists, free the raw buffer and the
descriptor storage if present (nulling each), free the device record, and
null `ws2811->device`.  Returns the new state and the tokens freed, in
order. -/
def ws2811_cleanup (s : ws2811_model) : ws2811_model × List Nat :=
  let f0 := match s.leds0 with | some t => [t] | none => []
  let f1 := match s.leds1 with | some t => [t] | none => []
  match s.device with
  | none => ({ leds0 := none, leds1 := none, device := none }, f0 ++ f1)
  | some d =>
      let fr := match d.pwm_raw with | some t => [t] | none => []
      let fc := match d.dma_cb with | some t => [t] | none => []
      ({ leds0 := none, leds1 := none, device := none },
        f0 ++ f1 ++ fr ++ fc ++ [d.selfTok])

/-- `ws2811_fini`: wait for DMA (reading `ws2811->device->dma`), stop the
PWM and unmap the registers (all through `ws2811->device`), then run
cleanup.  When the device pointer is null those dereferences fault, which
the model returns as `none`. -/
def ws2811_fini (s : ws2811_model) : Option (ws2811_model × List Nat) :=
  match s.device with
  | none => none
  | some _ => some (ws2811_cleanup s)

/-- Claim C9 (counterexample): shutdown is not safely invocable twice: after
a successful `ws2811_fini` (which frees everything and nulls the device
pointer), a second `ws2811_fini` dereferences the null device record in
`ws2811_wait` and faults instead of completing. -/
theorem c9_double_shutdown_counterexample :
    ws2811_fini ⟨some 1, some 2, some ⟨some 3, some 4, 5⟩⟩ =
      some (⟨none, none, none⟩, [1, 2, 3, 4, 5]) ∧
    ws2811_fini ⟨none, none, none⟩ = none := by
  constructor <;> rfl

/-- Claim C9 (amended): invoking cleanup twice in succession from any
(possibly partially-initialized) state frees no owned resource twice — the
second invocation frees nothing — and leaves all owned pointer fields null
after each invocation; shutdown, however, unconditionally dereferences the
device record, so once it has run (nulling the device pointer) a second
shutdown faults rather than completing. -/
theorem c9_cleanup_idempotent_amended (s : ws2811_model) :
    (ws2811_cleanup s).1.leds0 = none ∧
    (ws2811_cleanup s).1.leds1 = none ∧
    (ws2811_cleanup s).1.device = none ∧
    ws2811_cleanup (ws2811_cleanup s).1 = ((ws2811_cleanup s).1, []) ∧
    (match ws2811_fini s with
     | none => True
     | some p => ws2811_fini p.1 = none) := by
  obtain ⟨l0, l1, dev⟩ := s
  cases dev with
  | none => exact ⟨rfl, rfl, rfl, rfl, trivial⟩
  | some d => exact ⟨rfl, rfl, rfl, rfl, rfl⟩

/-! ### Claim C10: the completion waiter -/

/-- Modelled from the spec: the DMA status register's active flag
(`RPI_DMA_CS_ACTIVE`); the bit position lives in a header outside the core
source, and only its distinctness from the error bit matters. -/
def RPI_DMA_CS_ACTIVE : Nat := 1

/-- Modelled from the spec: the DMA status register's error flag
(`RPI_DMA_CS_ERROR`). -/
def RPI_DMA_CS_ERROR : Nat := 0x100

/-- `ws2811_wait` over an explicit trace of successive volatile reads of
`dma->cs`: each test in `while ((dma->cs & ACTIVE) && !(dma->cs & ERROR))`
is its own read (the error test only runs when the active test saw the flag
set), and the post-loop `if (dma->cs & ERROR)` is one further read.  Returns
the C return value together with the reads consumed; `none` when the trace
is exhausted while the code would still be polling. -/
def ws2811_wait_go (consumed : List Nat) : List Nat → Option (Int × List Nat)
  | [] => none
  | [_] => none
  | c1 :: c2 :: rest =>
      if c1 &&& RPI_DMA_CS_ACTIVE = 0 then
        some (if c2 &&& RPI_DMA_CS_ERROR ≠ 0 then -1 else 0, consumed ++ [c1, c2])
      else if c2 &&& RPI_DMA_CS_ERROR ≠ 0 then
        match rest with
        | [] => none
        | c3 :: _ =>
            some (if c3 &&& RPI_DMA_CS_ERROR ≠ 0 then -1 else 0, consumed ++ [c1, c2, c3])
      else ws2811_wait_go (consumed ++ [c1, c2]) rest

/-- `ws2811_wait` on a read trace: returns -1 (DmaTransferError) or 0. -/
def ws2811_wait (reads : List Nat) : Option (Int × List Nat) :=
  ws2811_wait_go [] reads

/-- The hardware error flag is persistent across a trace: once a read shows
it set, every later read does. -/
def errStable (tr : List Nat) : Prop :=
  List.Chain' (fun a b => a &&& RPI_DMA_CS_ERROR ≠ 0 → b &&& RPI_DMA_CS_ERROR ≠ 0) tr

/-- Claim C10 (counterexample): the loop exits after observing the error
flag set (read 257 = ACTIVE|ERROR), but the post-loop check re-reads the
register; if the flag has cleared by then (read 0), `ws2811_wait` returns
success even though the error flag was observed set. -/
theorem c10_wait_counterexample :
    ws2811_wait [1, 257, 0] = some (0, [1, 257, 0]) ∧
    257 &&& RPI_DMA_CS_ERROR ≠ 0 := by
  constructor <;> decide

/-- Invariant of the polling loop under a persistent error flag: assuming
every read consumed so far was error-free, the returned value is -1 exactly
when some consumed read had the error flag set. -/
theorem ws2811_wait_go_spec :
    ∀ (tr consumed : List Nat),
      (∀ c ∈ consumed, c &&& RPI_DMA_CS_ERROR = 0) →
      errStable tr →
      ∀ (r : Int) (cons : List Nat), ws2811_wait_go consumed tr = some (r, cons) →
        (r = -1 ↔ ∃ c ∈ cons, c &&& RPI_DMA_CS_ERROR ≠ 0)
  | [], _, _, _, _, _, h => by exact absurd h (by simp [ws2811_wait_go])
  | [c1], _, _, _, _, _, h => by exact absurd h (by simp [ws2811_wait_go])
  | c1 :: c2 :: rest, consumed, hclean, hstable, r, cons, h => by
      rw [errStable, List.chain'_cons] at hstable
      obtain ⟨h12, hstable2⟩ := hstable
      rw [ws2811_wait_go.eq_def] at h
      simp only [] at h
      by_cases hA : c1 &&& RPI_DMA_CS_ACTIVE = 0
      · rw [if_pos hA] at h
        obtain ⟨hr, hcons⟩ : (if c2 &&& RPI_DMA_CS_ERROR ≠ 0 then (-1 : Int) else 0) = r ∧
            consumed ++ [c1, c2] = cons := by
          have hinj := Option.some.inj h
          exact ⟨congrArg Prod.fst hinj, congrArg Prod.snd hinj⟩
        subst hcons
        by_cases hE : c2 &&& RPI_DMA_CS_ERROR ≠ 0
        · rw [if_pos hE] at hr
          subst hr
          simp only [true_iff, eq_self_iff_true]
          exact ⟨c2, by simp, hE⟩
        · rw [if_neg hE] at hr
          subst hr
          constructor
          · intro h0; exact absurd h0 (by decide)
          · rintro ⟨c, hmem, hcerr⟩
            simp at hmem
            rcases hmem with hmem | hmem | hmem
            · exact (hcerr (hclean c hmem)).elim
            · subst hmem
              exact (hE (h12 hcerr)).elim
            · subst hmem
              exact (hE hcerr).elim
      · rw [if_neg hA] at h
        by_cases hE : c2 &&& RPI_DMA_CS_ERROR ≠ 0
        · rw [if_pos hE] at h
          cases rest with
          | nil => exact absurd h (by simp)
          | cons c3 rest3 =>
            rw [List.chain'_cons] at hstable2
            obtain ⟨h23, _⟩ := hstable2
            have hE3 : c3 &&& RPI_DMA_CS_ERROR ≠ 0 := h23 hE
            obtain ⟨hr, hcons⟩ : (if c3 &&& RPI_DMA_CS_ERROR ≠ 0 then (-1 : Int) else 0) = r ∧
                consumed ++ [c1, c2, c3] = cons := by
              have hinj := Option.some.inj h
              exact ⟨congrArg Prod.fst hinj, congrArg Prod.snd hinj⟩
            subst hcons
            rw [if_pos hE3] at hr
            subst hr
            simp only [true_iff, eq_self_iff_true]
            exact ⟨c2, by simp, hE⟩
        · rw [if_neg hE] at h
          have hE1 : c1 &&& RPI_DMA_CS_ERROR = 0 := by
            by_contra hc
            exact hE (h12 hc)
          have hE2 : c2 &&& RPI_DMA_CS_ERROR = 0 := by
            by_contra hc
            exact hE hc
          refine ws2811_wait_go_spec rest (consumed ++ [c1, c2]) ?_ ?_ r cons h
          · intro c hmem
            simp at hmem
            rcases hmem with hmem | hmem | hmem
            · exact hclean c hmem
            · subst hmem; exact hE1
            · subst hmem; exact hE2
          · exact List.Chain'.tail hstable2

/-- Claim C10 (amended): when the error flag is persistent during the call
(never clears once a read shows it set), `ws2811_wait` returns
DmaTransferError (-1) exactly when the error flag is observed set in one of
its reads, and success (0) otherwise; without persistence the code decides
only on the final post-loop read (see the counterexample). -/
theorem c10_wait_amended (trace : List Nat) (r : Int) (cons : List Nat)
    (hstable : errStable trace)
    (hrun : ws2811_wait trace = some (r, cons)) :
    r = -1 ↔ ∃ c ∈ cons, c &&& RPI_DMA_CS_ERROR ≠ 0 :=
  ws2811_wait_go_spec trace [] (by simp) hstable r cons hrun

/-- Concrete instantiation of `c10_wait_amended` on the persistent trace
ACTIVE, ACTIVE|ERROR, ACTIVE|ERROR: the waiter reports the error. -/
theorem c10_wait_amended_witness :
    (errStable [1, 257, 257] ∧ ws2811_wait [1, 257, 257] = some (-1, [1, 257, 257])) ∧
    ((-1 : Int) = -1 ↔ ∃ c ∈ [1, 257, 257], c &&& RPI_DMA_CS_ERROR ≠ 0) := by
  have hs : errStable [1, 257, 257] := by
    rw [errStable, List.chain'_cons, List.chain'_cons]
    exact ⟨by decide, by decide, List.chain'_singleton _⟩
  exact ⟨⟨hs, by decide⟩,
    c10_wait_amended [1, 257, 257] (-1) [1, 257, 257] hs (by decide)⟩
